import Mathlib

/-!
Shallow embedding of the personal-resume-agent repository
(src/resume_rag.py and src/personal_resume_agent.py).

Strings are modelled as Lean `String` / `List Char`; Python floats are
modelled as exact rationals `ℚ`; Python dict results with varying key sets
are modelled as structures with `Option` fields; exceptions crossing a
`try/except` boundary are modelled with `Except`.
-/

namespace ResumeAgent

/-- The whitespace characters recognised by Python `str.split()` /
`str.strip()` (the ASCII ones, which are the only ones this program meets). -/
def isSpace (c : Char) : Bool :=
  c == ' ' || c == '\t' || c == '\n' || c == '\r' || c == '\x0b' || c == '\x0c'

/-- Python `s.split()` (no separator argument): split on runs of whitespace,
dropping empty pieces.  Embeds the `content.split()` call of
`ResumeRAGSystem._split_into_chunks`. -/
def pySplit : List Char → List (List Char)
  | [] => []
  | c :: rest =>
    if isSpace c then pySplit rest
    else (c :: rest.takeWhile (fun d => !isSpace d))
      :: pySplit (rest.dropWhile (fun d => !isSpace d))
termination_by l => l.length
decreasing_by
  · simp
  · have h := (List.dropWhile_sublist (l := rest) (fun d => !isSpace d)).length_le
    simp
    omega

/-- Python `s.strip()` on the left side. -/
def lstrip (l : List Char) : List Char := l.dropWhile isSpace

/-- Python `s.strip()` on the right side. -/
def rstrip (l : List Char) : List Char := (l.reverse.dropWhile isSpace).reverse

/-- Python `s.strip()`. -/
def pyStrip (l : List Char) : List Char := rstrip (lstrip l)

/-- The window decomposition performed by
`for i in range(0, len(words), chunk_size): words[i:i + chunk_size]`.
(Python raises `ValueError` on a zero step, so only `0 < W` is meaningful;
the `max W 1` keeps the Lean function total.) -/
def windows (W : Nat) : List α → List (List α)
  | [] => []
  | x :: xs => ((x :: xs).take W) :: windows W ((x :: xs).drop (max W 1))
termination_by l => l.length
decreasing_by
  simp [List.length_drop]

/-- Embeds `ResumeRAGSystem._split_into_chunks`, word-list level: join each window
with single spaces, keep the stripped chunk when it is non-empty. -/
def splitIntoChunksL (chunkSize : Nat) (content : List Char) : List (List Char) :=
  (windows chunkSize (pySplit content)).filterMap fun win =>
    let chunk := pyStrip (List.intercalate [' '] win)
    if chunk.isEmpty then none else some chunk

/-- Embeds `ResumeRAGSystem._split_into_chunks(content, chunk_size=500)`. -/
def splitIntoChunks (content : String) (chunkSize : Nat := 500) : List String :=
  (splitIntoChunksL chunkSize content.data).map List.asString

/-- Python `str.lower()` on the character range this program uses (ASCII). -/
def pyLower (l : List Char) : List Char := l.map Char.toLower

/-- The static keyword table of `PersonalResumeAgent._classify_query`.
Python dicts iterate in insertion order, so the priority order is fixed. -/
def queryKeywords : List (String × List String) :=
  [("experience",
    ["experience", "work", "job", "employment", "career", "role", "position"]),
   ("skills",
    ["skills", "technology", "programming", "languages", "tools", "expertise"]),
   ("education",
    ["education", "degree", "university", "college", "school", "certification"]),
   ("achievements",
    ["achievements", "accomplishments", "awards", "recognition", "success"]),
   ("projects", ["projects", "portfolio", "built", "developed", "created"]),
   ("contact", ["contact", "email", "phone", "location", "address", "reach"]),
   ("general", [])]

/-- Embeds `PersonalResumeAgent._classify_query`: return the first category in table
order one of whose keywords occurs as a substring of the query (Python
`keyword in query`); fall through to "general". -/
def classifyQuery (query : List Char) : String :=
  match queryKeywords.find?
      (fun ck => ck.2.any fun k => decide (List.IsInfix k.data query)) with
  | some ck => ck.1
  | none => "general"

/-- A formatted hit as built by `ResumeRAGSystem.search_resume`:
content, metadata, raw distance and `relevance = max(0.0, 1 - distance)`. -/
structure SearchResult where
  content : String
  metadata : List (String × String)
  distance : ℚ
  relevance : ℚ
deriving DecidableEq

/-- A raw hit of the vector index (`collection.query`): document text,
metadata, distance.  The index layer raising is an `Except.error`. -/
def RawHits : Type := List (String × List (String × String) × ℚ)

/-- Embeds `ResumeRAGSystem.search_resume`: format the raw hits of
`collection.query`; any exception from the embedding/index layer is caught
(`except` block) and yields the empty result list. -/
def searchResume (raw : Except String (List (String × List (String × String) × ℚ))) :
    List SearchResult :=
  match raw with
  | Except.error _ => []
  | Except.ok hits =>
    hits.map fun h =>
      { content := h.1, metadata := h.2.1, distance := h.2.2,
        relevance := max 0 (1 - h.2.2) }

/-- Embeds `PersonalResumeAgent._calculate_confidence`: 0.0 for no results, else the
mean relevance of the top (at most 3) results, capped at 1.0. -/
def calculateConfidence (searchResults : List SearchResult) : ℚ :=
  if searchResults = [] then 0
  else
    let top := searchResults.take 3
    if top = [] then
      0
    else
      min ((top.map SearchResult.relevance).sum / (top.length : ℚ)) 1

/-- The template table of `PersonalResumeAgent._get_response_template`. -/
def responseTemplates : List (String × String) :=
  [("experience", "Here's information about professional experience:"),
   ("skills", "Here are the relevant skills and technologies:"),
   ("education", "Here's the educational background:"),
   ("achievements", "Here are notable achievements and accomplishments:"),
   ("projects", "Here are relevant projects and developments:"),
   ("contact", "Here's the contact information:"),
   ("general", "Based on the resume information:")]

/-- Embeds `PersonalResumeAgent._get_response_template` (`dict.get` with the
"general" entry as default). -/
def getResponseTemplate (queryType : String) : String :=
  match responseTemplates.find? (fun t => t.1 == queryType) with
  | some t => t.2
  | none => "Based on the resume information:"

/-- The table of `PersonalResumeAgent._get_no_info_response`. -/
def noInfoResponses : List (String × String) :=
  [("experience",
    "I don't have specific information about that work experience in the resume."),
   ("skills",
    "I don't have information about those particular skills in the resume."),
   ("education",
    "I don't have information about that educational background in the resume."),
   ("achievements",
    "I don't have information about those specific achievements in the resume."),
   ("projects",
    "I don't have information about those particular projects in the resume."),
   ("contact", "I don't have contact information available in the resume."),
   ("general", "I don't have information about that topic in the resume.")]

/-- Embeds `PersonalResumeAgent._get_no_info_response` (`dict.get` with the
"general" entry as default). -/
def getNoInfoResponse (queryType : String) : String :=
  match noInfoResponses.find? (fun t => t.1 == queryType) with
  | some t => t.2
  | none => "I don't have information about that topic in the resume."

/-- Embeds `PersonalResumeAgent._generate_response`. -/
def generateResponse (query : String) (queryType : String)
    (searchResults : List SearchResult) : String :=
  if searchResults = [] then getNoInfoResponse queryType
  else
    let relevantContent :=
      ((searchResults.take 3).filter fun r => decide (0 ≤ r.relevance)).map
        SearchResult.content
    if relevantContent = [] then getNoInfoResponse queryType
    else
      let context := String.intercalate "\n" relevantContent
      let response := getResponseTemplate queryType ++ "\n\n" ++ context.take 800
      if 0 < searchResults.length then
        response ++ "\n\n(Based on " ++ toString searchResults.length
          ++ " relevant sections from resume)"
      else response

/-- The result dict of `PersonalResumeAgent.process_query`.  The two code
paths return different key sets, so the keys absent on a path are `none`.
The `timestamp` key (wall-clock time) is outside the model. -/
structure QueryOutcome where
  response : String
  source : Option String := none
  queryType : Option String := none
  sourceChunks : Option Nat := none
  confidence : ℚ
deriving DecidableEq

/-- The state of `PersonalResumeAgent` relevant here: the `initialized` flag
and the entries stored in the underlying vector index. -/
structure AgentState where
  initialized : Bool
  entries : List (String × String)
deriving DecidableEq

/-- Embeds `PersonalResumeAgent.process_query`.  `raw` is the outcome of the
embedding/index layer (`collection.query` inside `search_resume`) for this
call; `Except.error` models that layer raising. -/
def processQuery (st : AgentState) (query : String)
    (raw : Except String (List (String × List (String × String) × ℚ))) :
    QueryOutcome × AgentState :=
  if st.initialized = false then
    ({ response := "Agent not initialized. Please initialize first.",
       source := some "system_error", confidence := 0 }, st)
  else
    let queryType := classifyQuery (pyLower query.data)
    let searchResults := searchResume raw
    let response := generateResponse query queryType searchResults
    ({ response := response, queryType := some queryType,
       sourceChunks := some searchResults.length,
       confidence := calculateConfidence searchResults }, st)

/-- Python `round` (round half to even) to the nearest integer, on exact
rationals. -/
def roundHalfEven (q : ℚ) : ℤ :=
  if q - ⌊q⌋ < 1 / 2 then ⌊q⌋
  else if 1 / 2 < q - ⌊q⌋ then ⌊q⌋ + 1
  else if ⌊q⌋ % 2 = 0 then ⌊q⌋ else ⌊q⌋ + 1

/-- Python `round(x, 1)`. -/
def round1 (q : ℚ) : ℚ := (roundHalfEven (q * 10) : ℚ) / 10

/-- The result dict of `PersonalResumeAgent.get_skill_match`.  The three code
paths return different key sets, so the keys absent on a path are `none`. -/
structure SkillMatchResult where
  matchPercentage : ℚ
  matchingSkills : Option (List String) := none
  missingSkills : Option (List String) := none
  recommendations : Option String := none
  skillsSummary : Option String := none
  confidence : Option ℚ := none
  error : Option String := none
deriving DecidableEq

/-- Embeds `PersonalResumeAgent.get_skill_match`.  `rawSkills` is the index layer's
outcome for the fixed query "skills technologies programming" (k = 5).
Note: unlike `process_query`, the source has no `self.initialized` check. -/
def getSkillMatch (st : AgentState) (jobRequirements : String)
    (rawSkills : Except String (List (String × List (String × String) × ℚ))) :
    SkillMatchResult × AgentState :=
  let skillsResults := searchResume rawSkills
  if skillsResults = [] then
    ({ matchPercentage := 0, matchingSkills := some [],
       missingSkills := some [],
       recommendations := some "No skills information available in resume" }, st)
  else
    let skillsContent := String.intercalate " " (skillsResults.map SearchResult.content)
    let jobKeywords := pySplit (pyLower jobRequirements.data)
    let skillsKeywords := pySplit (pyLower skillsContent.data)
    let matchingSkills :=
      jobKeywords.filter fun k => decide (3 < k.length) && skillsKeywords.contains k
    let matchPercentage :=
      min ((matchingSkills.length : ℚ) / ((max jobKeywords.length 1 : ℕ) : ℚ) * 100) 100
    ({ matchPercentage := round1 matchPercentage,
       matchingSkills := some ((matchingSkills.take 10).map List.asString),
       skillsSummary := some (skillsContent.take 500),
       confidence := some (calculateConfidence skillsResults) }, st)

/-- The vector index contents as (id, document text) pairs in insertion
order.  `collection.add` refuses a duplicate id (ChromaDB keeps the existing
entry and logs a warning), so adding inserts only when the id is fresh. -/
def addEntry (idx : List (String × String)) (docId : String) (text : String) :
    List (String × String) :=
  if idx.any fun e => e.1 == docId then idx else idx ++ [(docId, text)]

/-- The (id, chunk) payloads handed to `collection.add` by
`_process_resume_file` for a file given as (basename, extracted text):
`doc_id = f"resume_\x7bos.path.basename(file_path)\x7d_\x7bi\x7d"`. -/
def chunkPairs (file : String × String) : List (String × String) :=
  (splitIntoChunks file.2 500).enum.map fun p =>
    ("resume_" ++ file.1 ++ "_" ++ toString p.1, p.2)

/-- Embeds `ResumeRAGSystem._process_resume_file`: empty extracted content (which is
also what `_extract_content` returns on an extraction failure) skips the file
with a warning; otherwise every chunk is added under its deterministic id.
Returns the per-file success flag. -/
def processResumeFile (idx : List (String × String)) (file : String × String) :
    Bool × List (String × String) :=
  if file.2 = "" then (false, idx)
  else (true, (chunkPairs file).foldl (fun i p => addEntry i p.1 p.2) idx)

/-- The supported extensions of `_find_resume_files`. -/
def supportedExtensions : List String := [".pdf", ".docx", ".txt", ".md"]

/-- Embeds `any(file.lower().endswith(ext) for ext in supported_extensions)`. -/
def isSupported (name : String) : Bool :=
  supportedExtensions.any fun ext =>
    decide (List.IsSuffix ext.data (pyLower name.data))

/-- Embeds `ResumeRAGSystem._find_resume_files` over a directory listing given as
(file name, extracted text) pairs: keep supported files whose lower-cased
name contains "resume" or "cv"; when none qualify, fall back to every
supported file. -/
def findResumeFiles (listing : List (String × String)) :
    List (String × String) :=
  let preferred := listing.filter fun f =>
    isSupported f.1 &&
      (decide (List.IsInfix ("resume" : String).data (pyLower f.1.data)) ||
        decide (List.IsInfix ("cv" : String).data (pyLower f.1.data)))
  if preferred = [] then listing.filter fun f => isSupported f.1 else preferred

/-- The per-file loop of `load_resume_files` (the per-file boolean result is
ignored there, so a failed file only skips itself). -/
def ingestFiles (files : List (String × String))
    (idx : List (String × String)) : List (String × String) :=
  files.foldl (fun i f => (processResumeFile i f).2) idx

/-- Embeds `ResumeRAGSystem.load_resume_files` over a directory listing: `false`
when no candidate files were found, otherwise process every candidate file
and return `true`. -/
def loadResumeFiles (listing : List (String × String))
    (idx : List (String × String)) : Bool × List (String × String) :=
  let files := findResumeFiles listing
  if files = [] then (false, idx)
  else (true, ingestFiles files idx)

/-- A sequence of ingestion runs starting from the empty index. -/
def ingestSequence (runs : List (List (String × String))) :
    List (String × String) :=
  runs.foldl (fun idx listing => (loadResumeFiles listing idx).2) []

/-- The chunk identifiers stored in the index. -/
def entryIds (idx : List (String × String)) : List String := idx.map Prod.fst

/-- The confidence as the SPEC describes it (for the refinement claim C5):
0.0 for an empty result set, otherwise the arithmetic mean of the relevance
values `max(0, 1 - distance)` of the first at most 3 hits, capped at 1.0. -/
def specConfidence (hits : List (String × List (String × String) × ℚ)) : ℚ :=
  if hits = [] then 0
  else
    min (((hits.take 3).map fun h => max 0 (1 - h.2.2)).sum
        / ((hits.take 3).length : ℚ)) 1

/-- The `skills_content` string joined by `get_skill_match` from the hits of
the fixed skills retrieval. -/
def skillsContentOf (hits : List (String × List (String × String) × ℚ)) :
    String :=
  String.intercalate " " ((searchResume (Except.ok hits)).map SearchResult.content)

/-- The `matching_skills` list computed by `get_skill_match` before the
`[:10]` cut: job tokens, in order, of length > 3 occurring verbatim among the
skills tokens (duplicates kept). -/
def matchingSkillsOf (job : String)
    (hits : List (String × List (String × String) × ℚ)) : List (List Char) :=
  (pySplit (pyLower job.data)).filter fun k =>
    decide (3 < k.length) &&
      (pySplit (pyLower (skillsContentOf hits).data)).contains k

@[simp] lemma pySplit_nil : pySplit [] = [] := by
  rw [pySplit]

lemma pySplit_cons_space {c : Char} (rest : List Char) (h : isSpace c = true) :
    pySplit (c :: rest) = pySplit rest := by
  rw [pySplit]
  simp [h]

lemma pySplit_cons_word {c : Char} (rest : List Char) (h : isSpace c = false) :
    pySplit (c :: rest) =
      (c :: rest.takeWhile (fun d => !isSpace d))
        :: pySplit (rest.dropWhile (fun d => !isSpace d)) := by
  rw [pySplit]
  simp [h]

@[simp] lemma windows_nil (W : Nat) : windows W ([] : List α) = [] := by
  unfold windows
  rfl

lemma windows_cons (W : Nat) (x : α) (xs : List α) :
    windows W (x :: xs) =
      ((x :: xs).take W) :: windows W ((x :: xs).drop (max W 1)) := by
  conv_lhs => unfold windows

lemma pySplit_good (l : List Char) :
    ∀ w ∈ pySplit l, w ≠ [] ∧ ∀ c ∈ w, isSpace c = false := by
  induction l using pySplit.induct with
  | case1 => simp
  | case2 c rest h ih =>
    rw [pySplit_cons_space rest h]
    exact ih
  | case3 c rest h ih =>
    have hc : isSpace c = false := by simpa using h
    rw [pySplit_cons_word rest hc]
    intro w hw
    rcases List.mem_cons.mp hw with rfl | hw
    · refine ⟨by simp, ?_⟩
      intro d hd
      rcases List.mem_cons.mp hd with rfl | hd
      · exact hc
      · have := List.mem_takeWhile_imp hd
        simpa using this
    · exact ih w hw

lemma pySplit_all_spaces (ss : List Char) (hss : ∀ c ∈ ss, isSpace c = true) :
    pySplit ss = [] := by
  induction ss with
  | nil => simp
  | cons d ss' ih =>
    rw [pySplit_cons_space ss' (hss d (List.mem_cons_self ..))]
    exact ih fun c hc => hss c (List.mem_cons_of_mem _ hc)

lemma pySplit_word_append (w t : List Char) (hw : w ≠ [])
    (hgood : ∀ c ∈ w, isSpace c = false)
    (ht : t = [] ∨ ∃ d t', t = d :: t' ∧ isSpace d = true) :
    pySplit (w ++ t) = w :: pySplit t := by
  cases w with
  | nil => exact absurd rfl hw
  | cons c w' =>
    have hc : isSpace c = false := hgood c (List.mem_cons_self ..)
    have hw' : ∀ d ∈ w', (fun d => !isSpace d) d = true := by
      intro d hd
      simp [hgood d (List.mem_cons_of_mem _ hd)]
    rw [List.cons_append, pySplit_cons_word _ hc]
    have htw : List.takeWhile (fun d => !isSpace d) (w' ++ t) = w' := by
      rw [List.takeWhile_append_of_pos hw']
      rcases ht with rfl | ⟨d, t', rfl, hd⟩
      · simp
      · rw [List.takeWhile_cons_of_neg]
        · simp
        · simp [hd]
    have hdw : List.dropWhile (fun d => !isSpace d) (w' ++ t) = t := by
      rw [List.dropWhile_append_of_pos hw']
      rcases ht with rfl | ⟨d, t', rfl, hd⟩
      · simp
      · rw [List.dropWhile_cons_of_neg]
        simp [hd]
    rw [htw, hdw]

lemma pySplit_intercalate (ws : List (List Char))
    (h : ∀ w ∈ ws, w ≠ [] ∧ ∀ c ∈ w, isSpace c = false) :
    pySplit (List.intercalate [' '] ws) = ws := by
  induction ws with
  | nil => simp [List.intercalate]
  | cons w ws ih =>
    obtain ⟨hwne, hwgood⟩ := h w (List.mem_cons_self ..)
    cases ws with
    | nil =>
      have h1 : List.intercalate [' '] [w] = w := by
        simp [List.intercalate]
      rw [h1]
      have := pySplit_word_append w [] hwne hwgood (Or.inl rfl)
      simpa using this
    | cons w2 ws2 =>
      have h1 : List.intercalate [' '] (w :: w2 :: ws2)
          = w ++ ' ' :: List.intercalate [' '] (w2 :: ws2) := by
        simp [List.intercalate]
      rw [h1, pySplit_word_append w _ hwne hwgood
        (Or.inr ⟨' ', _, rfl, by decide⟩)]
      rw [pySplit_cons_space _ (by decide)]
      rw [ih fun x hx => h x (List.mem_cons_of_mem _ hx)]

lemma pySplit_lstrip (l : List Char) : pySplit (lstrip l) = pySplit l := by
  induction l with
  | nil => simp [lstrip]
  | cons c rest ih =>
    by_cases hc : isSpace c = true
    · rw [lstrip, List.dropWhile_cons_of_pos hc, pySplit_cons_space rest hc]
      exact ih
    · rw [lstrip, List.dropWhile_cons_of_neg hc]

lemma pySplit_append_spaces (l ss : List Char) (hss : ∀ c ∈ ss, isSpace c = true) :
    pySplit (l ++ ss) = pySplit l := by
  induction l using pySplit.induct with
  | case1 =>
    simpa using pySplit_all_spaces ss hss
  | case2 c rest h ih =>
    rw [List.cons_append, pySplit_cons_space _ h, pySplit_cons_space _ h]
    exact ih
  | case3 c rest h ih =>
    have hc : isSpace c = false := by simpa using h
    rw [List.cons_append, pySplit_cons_word _ hc, pySplit_cons_word _ hc]
    have hssfail : List.takeWhile (fun d => !isSpace d) ss = [] := by
      cases ss with
      | nil => simp
      | cons d ss' =>
        rw [List.takeWhile_cons_of_neg]
        simp [hss d (List.mem_cons_self ..)]
    have htw : List.takeWhile (fun d => !isSpace d) (rest ++ ss)
        = List.takeWhile (fun d => !isSpace d) rest := by
      rw [List.takeWhile_append]
      split
      case isTrue hlen =>
        have heq : List.takeWhile (fun d => !isSpace d) rest = rest :=
          (List.takeWhile_prefix _).eq_of_length hlen
        rw [hssfail, heq, List.append_nil]
      case isFalse => rfl
    have hdw : pySplit (List.dropWhile (fun d => !isSpace d) (rest ++ ss))
        = pySplit (List.dropWhile (fun d => !isSpace d) rest) := by
      rw [List.dropWhile_append]
      split
      case isTrue hempty =>
        have h0 : List.dropWhile (fun d => !isSpace d) rest = [] :=
          List.isEmpty_iff.mp hempty
        have h1 : List.dropWhile (fun d => !isSpace d) ss = ss := by
          cases ss with
          | nil => simp
          | cons d ss' =>
            rw [List.dropWhile_cons_of_neg]
            simp [hss d (List.mem_cons_self ..)]
        rw [h0, h1, pySplit_all_spaces ss hss, pySplit_nil]
      case isFalse => exact ih
    rw [htw, hdw]

lemma rstrip_decomp (l : List Char) :
    ∃ ss, (∀ c ∈ ss, isSpace c = true) ∧ l = rstrip l ++ ss := by
  refine ⟨(l.reverse.takeWhile isSpace).reverse, ?_, ?_⟩
  · intro c hc
    rw [List.mem_reverse] at hc
    exact List.mem_takeWhile_imp hc
  · rw [rstrip]
    conv_lhs =>
      rw [← List.reverse_reverse l,
        ← List.takeWhile_append_dropWhile isSpace l.reverse]
    rw [List.reverse_append]

lemma pySplit_rstrip (l : List Char) : pySplit (rstrip l) = pySplit l := by
  obtain ⟨ss, hss, hdecomp⟩ := rstrip_decomp l
  conv_rhs => rw [hdecomp]
  rw [pySplit_append_spaces _ _ hss]

lemma pySplit_pyStrip (l : List Char) : pySplit (pyStrip l) = pySplit l := by
  rw [pyStrip, pySplit_rstrip, pySplit_lstrip]

lemma max_eq_of_pos {W : Nat} (hW : 0 < W) : max W 1 = W := by omega

lemma windows_flatten {α : Type _} (W : Nat) (hW : 0 < W) (l : List α) :
    (windows W l).flatten = l := by
  induction l using windows.induct W with
  | case1 => simp
  | case2 x xs ih =>
    rw [windows_cons, List.flatten_cons, ih, max_eq_of_pos hW,
      List.take_append_drop]

lemma windows_length {α : Type _} (W : Nat) (hW : 0 < W) (l : List α) :
    (windows W l).length = (l.length + W - 1) / W := by
  induction l using windows.induct W with
  | case1 =>
    simp [Nat.div_eq_of_lt (by omega : W - 1 < W)]
  | case2 x xs ih =>
    rw [windows_cons, List.length_cons, ih, max_eq_of_pos hW,
      List.length_drop, List.length_cons]
    set n := xs.length + 1 with hn
    have hn1 : 1 ≤ n := by omega
    rcases le_or_lt n W with hle | hlt
    · have h0 : n - W = 0 := by omega
      rw [h0]
      have hl : (W - 1) / W = 0 := Nat.div_eq_of_lt (by omega)
      have hr : (n + W - 1) / W = 1 := by
        apply Nat.div_eq_of_lt_le <;> omega
      rw [Nat.zero_add, hl, hr]
    · have h1 : n - W + W - 1 = (n - 1 - W) + W := by omega
      have h2 : n + W - 1 = (n - 1) + W := by omega
      rw [h1, h2, Nat.add_div_right _ hW, Nat.add_div_right _ hW]
      have h3 : n - 1 - W + W = n - 1 := by omega
      rw [← h3, Nat.add_div_right _ hW]
      have h4 : n - 1 - W + W - W = n - 1 - W := by omega
      rw [h4]

lemma windows_mem {α : Type _} (W : Nat) (hW : 0 < W) (l : List α) :
    ∀ win ∈ windows W l, win ≠ [] ∧ ∀ a ∈ win, a ∈ l := by
  induction l using windows.induct W with
  | case1 => simp
  | case2 x xs ih =>
    rw [windows_cons]
    intro win hwin
    rcases List.mem_cons.mp hwin with rfl | hwin
    · refine ⟨?_, fun a ha => List.take_subset _ _ ha⟩
      rw [Ne, List.take_eq_nil_iff]
      push_neg
      exact ⟨by omega, by simp⟩
    · obtain ⟨hne, hsub⟩ := ih win hwin
      exact ⟨hne, fun a ha => List.drop_subset _ _ (hsub a ha)⟩

lemma chunk_of_good_window (win : List (List Char))
    (hne : win ≠ []) (hgood : ∀ w ∈ win, w ≠ [] ∧ ∀ c ∈ w, isSpace c = false) :
    pyStrip (List.intercalate [' '] win) ≠ [] ∧
    pySplit (pyStrip (List.intercalate [' '] win)) = win := by
  have h2 : pySplit (pyStrip (List.intercalate [' '] win)) = win := by
    rw [pySplit_pyStrip, pySplit_intercalate win hgood]
  refine ⟨?_, h2⟩
  intro h0
  rw [h0, pySplit_nil] at h2
  exact hne h2.symm

lemma splitChunks_of_good (L : List (List (List Char)))
    (h : ∀ win ∈ L, win ≠ [] ∧ ∀ w ∈ win, w ≠ [] ∧ ∀ c ∈ w, isSpace c = false) :
    (L.filterMap fun win =>
        let chunk := pyStrip (List.intercalate [' '] win)
        if chunk.isEmpty then none else some chunk).map pySplit = L := by
  induction L with
  | nil => simp
  | cons win L ih =>
    obtain ⟨hne, hgood⟩ := h win (List.mem_cons_self ..)
    obtain ⟨hcne, hround⟩ := chunk_of_good_window win hne hgood
    rw [List.filterMap_cons]
    have hcond : (pyStrip (List.intercalate [' '] win)).isEmpty = false := by
      simp [List.isEmpty_iff, hcne]
    simp only [hcond, Bool.false_eq_true, if_false]
    rw [List.map_cons, hround, ih fun x hx => h x (List.mem_cons_of_mem _ hx)]

@[simp] lemma asString_data (l : List Char) : (List.asString l).data = l := rfl

/-- C2: For every input text with `N` whitespace-separated words and window
size `W > 0`, `_split_into_chunks` returns exactly `⌈N/W⌉` chunks (so an empty
sequence when `N = 0`), and splitting each returned chunk on whitespace and
concatenating the word lists in order reconstructs the original word sequence
exactly (hence chunks appear in source order). -/
theorem c2_chunker_count_and_reconstruction (content : String) (W : Nat)
    (hW : 0 < W) :
    (splitIntoChunks content W).length = ((pySplit content.data).length + W - 1) / W ∧
    ((splitIntoChunks content W).map fun c => pySplit c.data).flatten
      = pySplit content.data ∧
    (pySplit content.data = [] → splitIntoChunks content W = []) := by
  have hgoodwin : ∀ win ∈ windows W (pySplit content.data),
      win ≠ [] ∧ ∀ w ∈ win, w ≠ [] ∧ ∀ c ∈ w, isSpace c = false := by
    intro win hwin
    obtain ⟨hne, hsub⟩ := windows_mem W hW (pySplit content.data) win hwin
    exact ⟨hne, fun w hw => pySplit_good content.data w (hsub w hw)⟩
  have hkey := splitChunks_of_good (windows W (pySplit content.data)) hgoodwin
  have hL : (splitIntoChunksL W content.data).map pySplit
      = windows W (pySplit content.data) := by
    rw [splitIntoChunksL]
    exact hkey
  have hdata : ((splitIntoChunks content W).map fun c => pySplit c.data)
      = (splitIntoChunksL W content.data).map pySplit := by
    rw [splitIntoChunks, List.map_map]
    rfl
  refine ⟨?_, ?_, ?_⟩
  · have hlen : (splitIntoChunks content W).length
        = (splitIntoChunksL W content.data).length := by
      rw [splitIntoChunks, List.length_map]
    have hlen2 : ((splitIntoChunksL W content.data).map pySplit).length
        = (windows W (pySplit content.data)).length := by rw [hL]
    rw [List.length_map] at hlen2
    rw [hlen, hlen2, windows_length W hW]
  · rw [hdata, hL, windows_flatten W hW]
  · intro hempty
    rw [splitIntoChunks, splitIntoChunksL, hempty, windows_nil,
      List.filterMap_nil, List.map_nil]

/-- Witness for C2 at a concrete input: `"one two three"` with window size 2
yields 2 chunks whose words rebuild the original three words. -/
theorem c2_chunker_count_and_reconstruction_witness :
    0 < 2 ∧
      ((splitIntoChunks "one two three" 2).length
          = ((pySplit ("one two three" : String).data).length + 2 - 1) / 2 ∧
        (((splitIntoChunks "one two three" 2).map fun c => pySplit c.data).flatten
          = pySplit ("one two three" : String).data) ∧
        (pySplit ("one two three" : String).data = [] →
          splitIntoChunks "one two three" 2 = [])) :=
  ⟨by decide, c2_chunker_count_and_reconstruction "one two three" 2 (by decide)⟩

/-- C7: Query classification is a deterministic total function into the 7
fixed categories: every query gets exactly one category; the category is the
first one in the fixed table order with an occurring keyword; "general" is
returned when no keyword of any category occurs in the query. -/
theorem c7_classification_total_first_match (q : List Char) :
    classifyQuery q ∈ ["experience", "skills", "education", "achievements",
      "projects", "contact", "general"] ∧
    ((∀ ck ∈ queryKeywords, ∀ k ∈ ck.2, ¬ List.IsInfix k.data q) →
      classifyQuery q = "general") ∧
    (∀ pre ck post, queryKeywords = pre ++ ck :: post →
      (∀ ck2 ∈ pre, ∀ k ∈ ck2.2, ¬ List.IsInfix k.data q) →
      (∃ k ∈ ck.2, List.IsInfix k.data q) →
      classifyQuery q = ck.1) := by
  refine ⟨?_, ?_, ?_⟩
  · cases hfind : queryKeywords.find?
        (fun ck => ck.2.any fun k => decide (List.IsInfix k.data q)) with
    | none => simp [classifyQuery, hfind]
    | some ck =>
      have hmem := List.mem_of_find?_eq_some hfind
      have hall : ∀ ck2 ∈ queryKeywords,
          ck2.1 ∈ ["experience", "skills", "education", "achievements",
            "projects", "contact", "general"] := by decide
      simp only [classifyQuery, hfind]
      exact hall ck hmem
  · intro h
    have hnone : queryKeywords.find?
        (fun ck => ck.2.any fun k => decide (List.IsInfix k.data q)) = none := by
      rw [List.find?_eq_none]
      intro ck hck
      simp only [List.any_eq_true, decide_eq_true_eq, not_exists]
      intro k
      rintro ⟨hk, hinf⟩
      exact h ck hck k hk hinf
    simp [classifyQuery, hnone]
  · intro pre ck post hsplit hpre hmatch
    have hprenone : pre.find?
        (fun ck => ck.2.any fun k => decide (List.IsInfix k.data q)) = none := by
      rw [List.find?_eq_none]
      intro ck2 hck2
      simp only [List.any_eq_true, decide_eq_true_eq, not_exists]
      intro k
      rintro ⟨hk, hinf⟩
      exact hpre ck2 hck2 k hk hinf
    have hck : (fun ck => ck.2.any fun k => decide (List.IsInfix k.data q)) ck
        = true := by
      simp only [List.any_eq_true, decide_eq_true_eq]
      exact hmatch
    simp only [classifyQuery, hsplit, List.find?_append, hprenone,
      Option.none_or]
    rw [List.find?_cons_of_pos post hck]

/-- Witness for C7: the query "hello" contains no keyword of any category, so
it is classified "general". -/
theorem c7_classification_total_first_match_witness :
    classifyQuery ("hello" : String).data = "general" :=
  (c7_classification_total_first_match ("hello" : String).data).2.1 (by decide)

/-- C10: The query type produced by `process_query` is case-insensitive in
the query: the query is lower-cased before the keyword lookup, and every
keyword in the static table is already lower-case. -/
theorem c10_classification_case_insensitive :
    (∀ (st : AgentState) (q1 q2 : String) raw,
      pyLower q1.data = pyLower q2.data →
      (processQuery st q1 raw).1.queryType = (processQuery st q2 raw).1.queryType) ∧
    (∀ ck ∈ queryKeywords, ∀ k ∈ ck.2, pyLower k.data = k.data) := by
  constructor
  · intro st q1 q2 raw hlow
    cases hinit : st.initialized with
    | false => simp [processQuery, hinit]
    | true => simp [processQuery, hinit, hlow]
  · decide

/-- Witness for C10: "SKILLS?" and "skills?" lower to the same characters and
receive the same query type. -/
theorem c10_classification_case_insensitive_witness :
    pyLower ("SKILLS?" : String).data = pyLower ("skills?" : String).data ∧
    (processQuery ⟨true, []⟩ "SKILLS?" (Except.ok [])).1.queryType
      = (processQuery ⟨true, []⟩ "skills?" (Except.ok [])).1.queryType :=
  ⟨by decide,
    (c10_classification_case_insensitive).1 ⟨true, []⟩ "SKILLS?" "skills?"
      (Except.ok []) (by decide)⟩

/-- C5: The computed confidence is exactly 0 for an empty result list and
otherwise the arithmetic mean of the relevances of the first at most 3
results, capped at 1.0, where each formatted relevance is
`max(0, 1 - distance)`. -/
theorem c5_confidence_mean_top3 :
    calculateConfidence [] = 0 ∧
    (∀ e, calculateConfidence (searchResume (Except.error e)) = 0) ∧
    (∀ hits, calculateConfidence (searchResume (Except.ok hits)) = specConfidence hits) ∧
    (∀ hits, specConfidence hits ≤ 1) ∧
    (∀ hits, ∀ r ∈ searchResume (Except.ok hits),
      r.relevance = max 0 (1 - r.distance)) := by
  refine ⟨by simp [calculateConfidence], ?_, ?_, ?_, ?_⟩
  · intro e
    simp [searchResume, calculateConfidence]
  · intro hits
    cases hits with
    | nil => simp [searchResume, calculateConfidence, specConfidence]
    | cons h hs =>
      have hmapne : searchResume (Except.ok (h :: hs)) ≠ [] := by
        simp [searchResume]
      have htopne : (searchResume (Except.ok (h :: hs))).take 3 ≠ [] := by
        rw [Ne, List.take_eq_nil_iff]
        push_neg
        exact ⟨by omega, hmapne⟩
      rw [calculateConfidence, if_neg hmapne, specConfidence,
        if_neg (by simp : ¬(h :: hs) = [])]
      simp only [if_neg htopne]
      have hmt : (searchResume (Except.ok (h :: hs))).take 3
          = ((h :: hs).take 3).map fun x =>
              ({ content := x.1, metadata := x.2.1, distance := x.2.2,
                 relevance := max 0 (1 - x.2.2) } : SearchResult) := by
        simp [searchResume, List.map_take]
      rw [hmt, List.map_map, List.length_map]
      rfl
  · intro hits
    rw [specConfidence]
    split
    · norm_num
    · exact min_le_right _ _
  · intro hits r hr
    simp only [searchResume, List.mem_map] at hr
    obtain ⟨x, _, rfl⟩ := hr
    rfl

/-- C9: For a non-empty retrieval result the assembled response is the
fixed per-category template sentence, the newline-joined text of the top at
most 3 results truncated to 800 characters (the relevance filter `>= 0.0`
drops nothing, since every formatted relevance is non-negative), and an
attribution note with the number of result chunks. -/
theorem c9_response_assembly (query : String) (queryType : String)
    (searchResults : List SearchResult)
    (hne : searchResults ≠ [])
    (hrel : ∀ r ∈ searchResults, 0 ≤ r.relevance) :
    (generateResponse query queryType searchResults
      = getResponseTemplate queryType ++ "\n\n"
        ++ (String.intercalate "\n"
            ((searchResults.take 3).map SearchResult.content)).take 800
        ++ "\n\n(Based on " ++ toString searchResults.length
        ++ " relevant sections from resume)") ∧
    (∀ hits, ∀ r ∈ searchResume (Except.ok hits), 0 ≤ r.relevance) := by
  constructor
  · have hfilter : (searchResults.take 3).filter (fun r => decide (0 ≤ r.relevance))
        = searchResults.take 3 := by
      rw [List.filter_eq_self]
      intro r hr
      simpa using hrel r (List.take_subset _ _ hr)
    have htakene : searchResults.take 3 ≠ [] := by
      rw [Ne, List.take_eq_nil_iff]
      push_neg
      exact ⟨by omega, hne⟩
    have hcontentne : (searchResults.take 3).map SearchResult.content ≠ [] := by
      simpa using htakene
    have hlenpos : 0 < searchResults.length := List.length_pos.mpr hne
    rw [generateResponse, if_neg hne]
    simp only [hfilter, if_neg hcontentne, if_pos hlenpos]
  · intro hits r hr
    simp only [searchResume, List.mem_map] at hr
    obtain ⟨x, _, rfl⟩ := hr
    exact le_max_left _ _

/-- Witness for C9 at a single concrete search result. -/
theorem c9_response_assembly_witness :
    (generateResponse "q" "skills" [⟨"abc", [], 0, 1⟩]
      = getResponseTemplate "skills" ++ "\n\n"
        ++ (String.intercalate "\n"
            ((([⟨"abc", [], 0, 1⟩] : List SearchResult).take 3).map
              SearchResult.content)).take 800
        ++ "\n\n(Based on " ++ toString ([⟨"abc", [], 0, 1⟩] : List SearchResult).length
        ++ " relevant sections from resume)") ∧
    (∀ hits, ∀ r ∈ searchResume (Except.ok hits), 0 ≤ r.relevance) :=
  c9_response_assembly "q" "skills" [⟨"abc", [], 0, 1⟩] (by decide) (by decide)

/-- C4: When the embedding/index layer fails during a query call
(`collection.query` raising inside `search_resume` is caught there and gives
an empty result list), the call still returns an outcome: confidence exactly
0, the fixed plain-language per-category no-information message, no exception
propagated, and the stored index entries unchanged. -/
theorem c4_index_failure_plain_outcome (st : AgentState) (q e : String)
    (hinit : st.initialized = true) :
    (processQuery st q (Except.error e)).1.confidence = 0 ∧
    (processQuery st q (Except.error e)).1.response
      = getNoInfoResponse (classifyQuery (pyLower q.data)) ∧
    (processQuery st q (Except.error e)).2 = st ∧
    (processQuery st q (Except.error e)).2.entries = st.entries := by
  have hs : searchResume (Except.error e) = [] := rfl
  simp [processQuery, hinit, hs, generateResponse, calculateConfidence]

/-- Witness for C4 with one stored entry and a failing index layer. -/
theorem c4_index_failure_plain_outcome_witness :
    (processQuery ⟨true, [("resume_cv.txt_0", "text")]⟩ "hello"
        (Except.error "boom")).1.confidence = 0 ∧
    (processQuery ⟨true, [("resume_cv.txt_0", "text")]⟩ "hello"
        (Except.error "boom")).1.response
      = getNoInfoResponse (classifyQuery (pyLower ("hello" : String).data)) ∧
    (processQuery ⟨true, [("resume_cv.txt_0", "text")]⟩ "hello"
        (Except.error "boom")).2 = ⟨true, [("resume_cv.txt_0", "text")]⟩ ∧
    (processQuery ⟨true, [("resume_cv.txt_0", "text")]⟩ "hello"
        (Except.error "boom")).2.entries = [("resume_cv.txt_0", "text")] :=
  c4_index_failure_plain_outcome ⟨true, [("resume_cv.txt_0", "text")]⟩
    "hello" "boom" (by decide)

/-- Counterexample to C3 as stated: `get_skill_match` has no
`self.initialized` check, so on an uninitialized agent with a non-empty
skills retrieval it computes a real skill match (here confidence 1 and a 50%
match) instead of the fixed system-error outcome with confidence 0. -/
theorem c3_counterexample_skill_match_ignores_ready :
    (getSkillMatch ⟨false, []⟩ "python developer"
        (Except.ok [("Python Django AWS", [], 0)])).1.confidence = some 1 ∧
    (getSkillMatch ⟨false, []⟩ "python developer"
        (Except.ok [("Python Django AWS", [], 0)])).1.confidence ≠ some 0 ∧
    (getSkillMatch ⟨false, []⟩ "python developer"
        (Except.ok [("Python Django AWS", [], 0)])).1.matchPercentage = 50 := by
  have hres : searchResume (Except.ok [("Python Django AWS", [], 0)])
      = [⟨"Python Django AWS", [], 0, 1⟩] := by
    simp only [searchResume, List.map_cons, List.map_nil]
    norm_num
  have hconf : calculateConfidence [⟨"Python Django AWS", [], 0, 1⟩] = 1 := by
    simp [calculateConfidence]
  have hne2 : ¬(searchResume (Except.ok [("Python Django AWS", [], 0)]) = []) := by
    rw [hres]
    simp
  refine ⟨?_, ?_, ?_⟩
  · rw [getSkillMatch]
    simp only [if_neg hne2, hres, hconf]
    rfl
  · rw [getSkillMatch]
    simp only [if_neg hne2, hres, hconf]
    intro hcontra
    exact absurd (Option.some.inj hcontra) (by norm_num)
  · rw [getSkillMatch]
    simp only [if_neg hne2, hres]
    have hcontent : String.intercalate " "
        (List.map SearchResult.content
          ([⟨"Python Django AWS", [], 0, 1⟩] : List SearchResult))
        = "Python Django AWS" := by decide
    rw [hcontent]
    simp [pySplit, pyLower, isSpace, Char.toLower, round1, roundHalfEven]
    norm_num

/-- C3 (amended): `process_query` on a not-ready agent returns the fixed
system-error outcome with confidence 0.0 without raising and without touching
the state; `get_skill_match`, however, performs no readiness check: its
result is the same as on an initialized agent (it neither raises nor triggers
initialization either). -/
theorem c3_not_ready_amended (st : AgentState) (q job : String)
    (raw rawS : Except String (List (String × List (String × String) × ℚ)))
    (hinit : st.initialized = false) :
    (processQuery st q raw).1
      = { response := "Agent not initialized. Please initialize first.",
          source := some "system_error", confidence := 0 } ∧
    (processQuery st q raw).1.confidence = 0 ∧
    (processQuery st q raw).2 = st ∧
    (getSkillMatch st job rawS).2 = st ∧
    (getSkillMatch st job rawS).1
      = (getSkillMatch { st with initialized := true } job rawS).1 := by
  refine ⟨?_, ?_, ?_, ?_, ?_⟩
  · simp [processQuery, hinit]
  · simp [processQuery, hinit]
  · simp [processQuery, hinit]
  · by_cases h : searchResume rawS = [] <;> simp [getSkillMatch, h]
  · by_cases h : searchResume rawS = [] <;> simp [getSkillMatch, h]

/-- Witness for the amended C3 on a concrete uninitialized agent. -/
theorem c3_not_ready_amended_witness :
    (processQuery ⟨false, []⟩ "hi" (Except.ok [])).1
      = { response := "Agent not initialized. Please initialize first.",
          source := some "system_error", confidence := 0 } ∧
    (processQuery ⟨false, []⟩ "hi" (Except.ok [])).1.confidence = 0 ∧
    (processQuery ⟨false, []⟩ "hi" (Except.ok [])).2 = ⟨false, []⟩ ∧
    (getSkillMatch ⟨false, []⟩ "job" (Except.ok [])).2 = ⟨false, []⟩ ∧
    (getSkillMatch ⟨false, []⟩ "job" (Except.ok [])).1
      = (getSkillMatch ⟨true, []⟩ "job" (Except.ok [])).1 :=
  c3_not_ready_amended ⟨false, []⟩ "hi" "job" (Except.ok []) (Except.ok [])
    (by decide)

lemma floor_le_roundHalfEven (q : ℚ) : ⌊q⌋ ≤ roundHalfEven q := by
  rw [roundHalfEven]
  split
  · exact le_refl _
  · split
    · omega
    · split <;> omega

lemma roundHalfEven_nonneg {q : ℚ} (h : 0 ≤ q) : 0 ≤ roundHalfEven q := by
  have h0 : 0 ≤ ⌊q⌋ := by
    rw [Int.le_floor]
    exact_mod_cast h
  exact le_trans h0 (floor_le_roundHalfEven q)

lemma roundHalfEven_le {q : ℚ} {b : ℤ} (hb : q ≤ (b : ℚ)) :
    roundHalfEven q ≤ b := by
  have hfl : ⌊q⌋ ≤ b := by
    have : (⌊q⌋ : ℚ) ≤ (b : ℚ) := le_trans (Int.floor_le q) hb
    exact_mod_cast this
  rw [roundHalfEven]
  split
  · exact hfl
  · next hhalf =>
    have h2 : (⌊q⌋ : ℚ) + 1 / 2 ≤ q := by
      have := not_lt.mp hhalf
      linarith
    have h3 : (⌊q⌋ : ℚ) < (b : ℚ) := by linarith
    have h4 : ⌊q⌋ < b := by exact_mod_cast h3
    split
    · omega
    · split <;> omega

lemma round1_bounds {q : ℚ} (h0 : 0 ≤ q) (h100 : q ≤ 100) :
    0 ≤ round1 q ∧ round1 q ≤ 100 := by
  have hb0 : 0 ≤ roundHalfEven (q * 10) := roundHalfEven_nonneg (by linarith)
  have hb1 : roundHalfEven (q * 10) ≤ 1000 := by
    apply roundHalfEven_le
    push_cast
    linarith
  constructor
  · rw [round1]
    have : (0 : ℚ) ≤ (roundHalfEven (q * 10) : ℚ) := by exact_mod_cast hb0
    linarith
  · rw [round1]
    have : (roundHalfEven (q * 10) : ℚ) ≤ 1000 := by exact_mod_cast hb1
    linarith

/-- Counterexample to C8 as stated: when the skills retrieval is empty,
the mapping returned by `get_skill_match` has no `confidence` key at all
(and no `error` either) — only `match_percentage`, `matching_skills`,
`missing_skills` and `recommendations`. -/
theorem c8_counterexample_no_confidence_key :
    (getSkillMatch ⟨true, []⟩ "python developer" (Except.ok [])).1.confidence
      = none ∧
    (getSkillMatch ⟨true, []⟩ "python developer"
      (Except.ok [])).1.matchPercentage = 0 ∧
    (getSkillMatch ⟨true, []⟩ "python developer"
      (Except.ok [])).1.matchingSkills = some [] := by
  refine ⟨rfl, rfl, rfl⟩

/-- C8 (amended): For a non-empty skills retrieval, `get_skill_match`
counts a lower-cased job token as a match iff its length exceeds 3 and it
occurs verbatim among the lower-cased whitespace tokens of the concatenated
skills chunks; `match_percentage = round1(min(100 * (#matches / max(#job
tokens, 1)), 100))` and lies in [0, 100]; `matching_skills` is the first at
most 10 matches in job order, duplicates kept; and `confidence` is present.
(When the retrieval is empty the returned mapping instead has
`match_percentage 0`, `matching_skills []` and NO confidence key.) -/
theorem c8_skill_match_amended (st : AgentState) (job : String)
    (hits : List (String × List (String × String) × ℚ)) (hne : hits ≠ []) :
    (getSkillMatch st job (Except.ok hits)).1.matchPercentage
      = round1 (min (100 * ((matchingSkillsOf job hits).length
          / ((max (pySplit (pyLower job.data)).length 1 : ℕ) : ℚ))) 100) ∧
    0 ≤ (getSkillMatch st job (Except.ok hits)).1.matchPercentage ∧
    (getSkillMatch st job (Except.ok hits)).1.matchPercentage ≤ 100 ∧
    (getSkillMatch st job (Except.ok hits)).1.matchingSkills
      = some (((matchingSkillsOf job hits).take 10).map List.asString) ∧
    (∀ k, k ∈ matchingSkillsOf job hits ↔
      k ∈ pySplit (pyLower job.data) ∧ 3 < k.length ∧
        k ∈ pySplit (pyLower (skillsContentOf hits).data)) ∧
    (getSkillMatch st job (Except.ok hits)).1.confidence
      = some (calculateConfidence (searchResume (Except.ok hits))) := by
  have hne2 : ¬(searchResume (Except.ok hits) = []) := by
    simp [searchResume, hne]
  have hpct : (getSkillMatch st job (Except.ok hits)).1.matchPercentage
      = round1 (min (((matchingSkillsOf job hits).length : ℚ)
          / ((max (pySplit (pyLower job.data)).length 1 : ℕ) : ℚ) * 100) 100) := by
    rw [getSkillMatch]
    simp only [if_neg hne2]
    rfl
  have hquot0 : (0 : ℚ) ≤ ((matchingSkillsOf job hits).length : ℚ)
      / ((max (pySplit (pyLower job.data)).length 1 : ℕ) : ℚ) * 100 := by
    have hd : (0 : ℚ) < ((max (pySplit (pyLower job.data)).length 1 : ℕ) : ℚ) := by
      have : 1 ≤ max (pySplit (pyLower job.data)).length 1 := le_max_right _ _
      exact_mod_cast Nat.lt_of_lt_of_le Nat.zero_lt_one this
    positivity
  have hmin0 : (0 : ℚ) ≤ min (((matchingSkillsOf job hits).length : ℚ)
      / ((max (pySplit (pyLower job.data)).length 1 : ℕ) : ℚ) * 100) 100 :=
    le_min hquot0 (by norm_num)
  have hmin100 : min (((matchingSkillsOf job hits).length : ℚ)
      / ((max (pySplit (pyLower job.data)).length 1 : ℕ) : ℚ) * 100) 100
      ≤ 100 := min_le_right _ _
  obtain ⟨hb0, hb100⟩ := round1_bounds hmin0 hmin100
  refine ⟨?_, ?_, ?_, ?_, ?_, ?_⟩
  · rw [hpct]
    congr 2
    rw [mul_comm]
  · rw [hpct]
    exact hb0
  · rw [hpct]
    exact hb100
  · rw [getSkillMatch]
    simp only [if_neg hne2]
    rfl
  · intro k
    rw [matchingSkillsOf, List.mem_filter]
    simp only [Bool.and_eq_true, decide_eq_true_eq, and_assoc]
    constructor
    · rintro ⟨h1, h2, h3⟩
      exact ⟨h1, h2, List.elem_iff.mp h3⟩
    · rintro ⟨h1, h2, h3⟩
      exact ⟨h1, h2, List.elem_iff.mpr h3⟩
  · rw [getSkillMatch]
    simp only [if_neg hne2]

/-- Witness for the amended C8 on a concrete non-empty retrieval. -/
theorem c8_skill_match_amended_witness :
    (getSkillMatch ⟨true, []⟩ "python developer"
        (Except.ok [("Python Django AWS", [], 0)])).1.matchPercentage
      = round1 (min (100 * ((matchingSkillsOf "python developer"
            [("Python Django AWS", [], 0)]).length
          / ((max (pySplit (pyLower ("python developer" : String).data)).length 1
            : ℕ) : ℚ))) 100) ∧
    0 ≤ (getSkillMatch ⟨true, []⟩ "python developer"
        (Except.ok [("Python Django AWS", [], 0)])).1.matchPercentage ∧
    (getSkillMatch ⟨true, []⟩ "python developer"
        (Except.ok [("Python Django AWS", [], 0)])).1.matchPercentage ≤ 100 ∧
    (getSkillMatch ⟨true, []⟩ "python developer"
        (Except.ok [("Python Django AWS", [], 0)])).1.matchingSkills
      = some (((matchingSkillsOf "python developer"
          [("Python Django AWS", [], 0)]).take 10).map List.asString) ∧
    (∀ k, k ∈ matchingSkillsOf "python developer" [("Python Django AWS", [], 0)] ↔
      k ∈ pySplit (pyLower ("python developer" : String).data) ∧ 3 < k.length ∧
        k ∈ pySplit (pyLower
          (skillsContentOf [("Python Django AWS", [], 0)]).data)) ∧
    (getSkillMatch ⟨true, []⟩ "python developer"
        (Except.ok [("Python Django AWS", [], 0)])).1.confidence
      = some (calculateConfidence (searchResume
          (Except.ok [("Python Django AWS", [], 0)]))) :=
  c8_skill_match_amended ⟨true, []⟩ "python developer"
    [("Python Django AWS", [], 0)] (by decide)

@[simp] lemma entryIds_append (l1 l2 : List (String × String)) :
    entryIds (l1 ++ l2) = entryIds l1 ++ entryIds l2 := by
  simp [entryIds]

lemma any_beq_iff_mem (idx : List (String × String)) (docId : String) :
    (idx.any fun e => e.1 == docId) = true ↔ docId ∈ entryIds idx := by
  simp [entryIds, List.any_eq_true, List.mem_map]

lemma addEntry_of_mem {idx : List (String × String)} {docId : String}
    (t : String) (h : docId ∈ entryIds idx) : addEntry idx docId t = idx := by
  rw [addEntry, if_pos ((any_beq_iff_mem idx docId).mpr h)]

lemma mem_entryIds_addEntry (idx : List (String × String)) (docId t : String) :
    docId ∈ entryIds (addEntry idx docId t) := by
  rw [addEntry]
  split
  · next h => exact (any_beq_iff_mem idx docId).mp h
  · simp [entryIds]

lemma entryIds_addEntry_mono (idx : List (String × String)) (a t : String) :
    entryIds idx ⊆ entryIds (addEntry idx a t) := by
  rw [addEntry]
  split
  · exact fun x h => h
  · intro x hx
    rw [entryIds_append]
    exact List.mem_append_left _ hx

lemma foldAdd_mono (ps : List (String × String)) (idx : List (String × String)) :
    entryIds idx ⊆ entryIds (ps.foldl (fun i p => addEntry i p.1 p.2) idx) := by
  induction ps generalizing idx with
  | nil => exact fun x h => h
  | cons p ps ih =>
    intro x hx
    rw [List.foldl_cons]
    exact ih _ (entryIds_addEntry_mono _ _ _ hx)

lemma mem_foldAdd (ps : List (String × String)) (idx : List (String × String))
    (p : String × String) (hp : p ∈ ps) :
    p.1 ∈ entryIds (ps.foldl (fun i q => addEntry i q.1 q.2) idx) := by
  induction ps generalizing idx with
  | nil => cases hp
  | cons q ps ih =>
    rw [List.foldl_cons]
    rcases List.mem_cons.mp hp with rfl | hp
    · exact foldAdd_mono ps _ (mem_entryIds_addEntry _ _ _)
    · exact ih _ hp

lemma foldAdd_of_all_mem (ps : List (String × String))
    (idx : List (String × String)) (h : ∀ p ∈ ps, p.1 ∈ entryIds idx) :
    ps.foldl (fun i p => addEntry i p.1 p.2) idx = idx := by
  induction ps with
  | nil => rfl
  | cons p ps ih =>
    rw [List.foldl_cons, addEntry_of_mem _ (h p (List.mem_cons_self ..))]
    exact ih fun q hq => h q (List.mem_cons_of_mem _ hq)

lemma chunkPairs_of_empty (name : String) : chunkPairs (name, "") = [] := by
  have hd : ("" : String).data = [] := rfl
  simp [chunkPairs, splitIntoChunks, splitIntoChunksL, hd]

lemma processResumeFile_snd (idx : List (String × String))
    (f : String × String) :
    (processResumeFile idx f).2
      = (chunkPairs f).foldl (fun i p => addEntry i p.1 p.2) idx := by
  rw [processResumeFile]
  split
  · next h =>
    have hcp : chunkPairs f = [] := by
      have : f = (f.1, "") := by
        rw [← h]
    

      rw [this]
      exact chunkPairs_of_empty f.1
    rw [hcp]
    rfl
  · rfl

lemma ingestFiles_cons (f : String × String) (fs : List (String × String))
    (idx : List (String × String)) :
    ingestFiles (f :: fs) idx = ingestFiles fs (processResumeFile idx f).2 := rfl

lemma ingestFiles_mono (files : List (String × String))
    (idx : List (String × String)) :
    entryIds idx ⊆ entryIds (ingestFiles files idx) := by
  induction files generalizing idx with
  | nil => exact fun x h => h
  | cons f fs ih =>
    intro x hx
    rw [ingestFiles_cons]
    refine ih _ ?_
    rw [processResumeFile_snd]
    exact foldAdd_mono _ _ hx

lemma mem_ingestFiles (files : List (String × String))
    (idx : List (String × String)) (f : String × String)
    (p : String × String) (hf : f ∈ files) (hp : p ∈ chunkPairs f) :
    p.1 ∈ entryIds (ingestFiles files idx) := by
  induction files generalizing idx with
  | nil => cases hf
  | cons g fs ih =>
    rw [ingestFiles_cons]
    rcases List.mem_cons.mp hf with rfl | hf
    · apply ingestFiles_mono
      rw [processResumeFile_snd]
      exact mem_foldAdd _ _ _ hp
    · exact ih _ hf

lemma ingestFiles_of_all_mem (files : List (String × String))
    (idx : List (String × String))
    (h : ∀ f ∈ files, ∀ p ∈ chunkPairs f, p.1 ∈ entryIds idx) :
    ingestFiles files idx = idx := by
  induction files with
  | nil => rfl
  | cons f fs ih =>
    rw [ingestFiles_cons, processResumeFile_snd,
      foldAdd_of_all_mem _ _ (h f (List.mem_cons_self ..))]
    exact ih fun g hg => h g (List.mem_cons_of_mem _ hg)

lemma ingestFiles_idem (files : List (String × String))
    (idx : List (String × String)) :
    ingestFiles files (ingestFiles files idx) = ingestFiles files idx :=
  ingestFiles_of_all_mem _ _ fun f hf p hp => mem_ingestFiles _ _ _ _ hf hp

lemma nodup_addEntry {idx : List (String × String)} (a t : String)
    (h : (entryIds idx).Nodup) : (entryIds (addEntry idx a t)).Nodup := by
  rw [addEntry]
  split
  · exact h
  · next hany =>
    have hnm : a ∉ entryIds idx := fun hm =>
      hany ((any_beq_iff_mem idx a).mpr hm)
    rw [entryIds_append]
    exact h.append (List.nodup_singleton a)
      (List.disjoint_singleton.mpr hnm)

lemma nodup_foldAdd (ps : List (String × String))
    (idx : List (String × String)) (h : (entryIds idx).Nodup) :
    (entryIds (ps.foldl (fun i p => addEntry i p.1 p.2) idx)).Nodup := by
  induction ps generalizing idx with
  | nil => exact h
  | cons p ps ih =>
    rw [List.foldl_cons]
    exact ih _ (nodup_addEntry _ _ h)

lemma nodup_ingestFiles (files : List (String × String))
    (idx : List (String × String)) (h : (entryIds idx).Nodup) :
    (entryIds (ingestFiles files idx)).Nodup := by
  induction files generalizing idx with
  | nil => exact h
  | cons f fs ih =>
    rw [ingestFiles_cons]
    refine ih _ ?_
    rw [processResumeFile_snd]
    exact nodup_foldAdd _ _ h

lemma nodup_loadResumeFiles (listing : List (String × String))
    (idx : List (String × String)) (h : (entryIds idx).Nodup) :
    (entryIds (loadResumeFiles listing idx).2).Nodup := by
  rw [loadResumeFiles]
  split
  · exact h
  · exact nodup_ingestFiles _ _ h

/-- C1: Re-ingesting the same unchanged source directory over the result
of a first ingestion leaves the index exactly as it was (same chunk-id set,
same stored text, no growth in entry count), and after any sequence of
ingestion runs every chunk identifier holds at most one index entry (the ids
are pairwise distinct). -/
theorem c1_reingest_idempotent_and_unique_ids :
    (∀ listing : List (String × String),
      (loadResumeFiles listing (loadResumeFiles listing []).2).2
        = (loadResumeFiles listing []).2) ∧
    (∀ runs : List (List (String × String)),
      (entryIds (ingestSequence runs)).Nodup) := by
  constructor
  · intro listing
    by_cases h : findResumeFiles listing = []
    · simp [loadResumeFiles, h]
    · simp only [loadResumeFiles, if_neg h]
      exact ingestFiles_idem _ _
  · intro runs
    have hgen : ∀ (rs : List (List (String × String)))
        (idx : List (String × String)), (entryIds idx).Nodup →
        (entryIds (rs.foldl (fun i l => (loadResumeFiles l i).2) idx)).Nodup := by
      intro rs
      induction rs with
      | nil => exact fun idx h => h
      | cons r rs ih =>
        intro idx h
        rw [List.foldl_cons]
        exact ih _ (nodup_loadResumeFiles _ _ h)
    exact hgen runs [] (by simp [entryIds])

/-- C6: `load_resume_files` returns `true` exactly when the directory
holds at least one supported file (regardless of whether any chunks
resulted), so `false` exactly when it holds none; and a file whose extraction
came back empty (the in-loop failure mode) only skips itself: the run over
the other files is unchanged. -/
theorem c6_load_result_and_per_file_skip :
    (∀ (listing idx : List (String × String)),
      ((loadResumeFiles listing idx).1 = true ↔
        ∃ f ∈ listing, isSupported f.1 = true)) ∧
    (∀ (fs1 fs2 : List (String × String)) (name : String)
      (idx : List (String × String)),
      ingestFiles (fs1 ++ (name, "") :: fs2) idx
        = ingestFiles (fs1 ++ fs2) idx) := by
  constructor
  · intro listing idx
    have hkey : findResumeFiles listing = [] ↔
        ∀ f ∈ listing, ¬ isSupported f.1 = true := by
      simp only [findResumeFiles]
      by_cases hp : listing.filter (fun f =>
          isSupported f.1 &&
            (decide (List.IsInfix ("resume" : String).data (pyLower f.1.data)) ||
              decide (List.IsInfix ("cv" : String).data (pyLower f.1.data)))) = []
      · rw [if_pos hp, List.filter_eq_nil_iff]
      · rw [if_neg hp]
        constructor
        · intro h
          exact absurd h hp
        · intro hall
          exfalso
          apply hp
          rw [List.filter_eq_nil_iff]
          intro f hf
          simp [hall f hf]
    have h1 : (loadResumeFiles listing idx).1 = true ↔
        ¬(findResumeFiles listing = []) := by
      rw [loadResumeFiles]
      by_cases h : findResumeFiles listing = [] <;> simp [h]
    rw [h1, hkey]
    push_neg
    simp
  · intro fs1 fs2 name idx
    simp only [ingestFiles, List.foldl_append, List.foldl_cons]
    rfl
